import Mathlib

/-!
Shallow embedding of `SpikingFlow/simulating/__init__.py` (`class Simulator`).

The Python simulator keeps
  * `module_list` — the chain of stages (torch modules),
  * `pipeline`    — a list of length `len(module_list) + 1` of optional
    signals (`None` models "absent"),
  * `simulated_steps` — number of completed `step` calls,
  * `fast`        — whether the first `step` runs a forward warm-up pass.

A stage (a torch module) is modelled by an opaque value of type `β`
together with `StageOps`: `call` models `module.__call__`, which receives
the raw content of a pipeline slot (possibly `None`, since the source
passes the slot verbatim), may fail (a raised exception is modelled by
`Except.error`), and returns the updated module state and its output;
`reset` models `module.reset()`.

`Simulator.step` additionally returns the list of stage invocations that
were performed — each entry records the stage index and the argument the
stage was called with — so that claims about which stages get invoked
(and with which arguments) can be stated.  List indexing out of range is
modelled as reading `none` / a no-op write; such accesses are unreachable
for well-formed states (`len(pipeline) = len(module_list) + 1`), where the
model agrees with the Python exactly.
-/

namespace SpikingFlow

/-- Stage capability: `call` is `module.__call__` (fallible, stateful),
`reset` is `module.reset()`. -/
structure StageOps (ε α β : Type) where
  call : β → Option α → Except ε (β × Option α)
  reset : β → β

/-- State of `SpikingFlow.simulating.Simulator`: the four attributes set
by `__init__`. -/
structure Simulator (α β : Type) where
  module_list : List β
  pipeline : List (Option α)
  simulated_steps : Nat
  fast : Bool

variable {α β ε : Type}

deriving instance DecidableEq for Except

/-- Read pipeline slot `i` (`self.pipeline[i]`); out of range gives
`none` (unreachable for well-formed states). -/
def slot : List (Option α) → Nat → Option α
  | [], _ => none
  | a :: _, 0 => a
  | _ :: l, i + 1 => slot l i

/-- The last pipeline slot, `self.pipeline[-1]`. -/
def lastSlot : List (Option α) → Option α
  | [] => none
  | [a] => a
  | _ :: b :: l => lastSlot (b :: l)

/-- Last element of a plain list with a default (used to state which
signal reaches the end of the chain). -/
def lastD : List α → α → α
  | [], d => d
  | a :: l, _ => lastD l a

/-- `upFrom a k = [a, a+1, ..., a+k-1]`; `upFrom 0 n` is Python's
`range(n)`. -/
def upFrom : Nat → Nat → List Nat
  | _, 0 => []
  | a, k + 1 => a :: upFrom (a + 1) k

/-- Python's `range(n, 0, -1) = [n, n-1, ..., 1]`. -/
def revRange : Nat → List Nat
  | 0 => []
  | n + 1 => (n + 1) :: revRange n

/-- The forward warm-up loop of `step` (taken when
`simulated_steps == 0 and fast`): for each `i` in order,
`pipeline[i+1] = module_list[i](pipeline[i])` — no absence check.  The
accumulated third component records every stage invocation `(i, arg)`.
A raised exception stops the loop and is reported in the second
component of the result. -/
def fastLoop (ops : StageOps ε α β) :
    List β → List (Option α) → List (Nat × Option α) → List Nat →
    (List β × List (Option α) × List (Nat × Option α)) × Option ε
  | mods, pl, tr, [] => ((mods, pl, tr), none)
  | mods, pl, tr, i :: rest =>
    match mods[i]? with
    | none => fastLoop ops mods pl tr rest
    | some b =>
      match ops.call b (slot pl i) with
      | Except.error e => ((mods, pl, tr ++ [(i, slot pl i)]), some e)
      | Except.ok r => fastLoop ops (mods.set i r.1) (pl.set (i + 1) r.2) (tr ++ [(i, slot pl i)]) rest

/-- The latency-accurate reverse loop of `step` (the `else` branch):
for `i` in `range(n, 0, -1)`, if `pipeline[i-1] is not None` then
`pipeline[i] = module_list[i-1](pipeline[i-1])` else
`pipeline[i] = None`. -/
def revLoop (ops : StageOps ε α β) :
    List β → List (Option α) → List (Nat × Option α) → List Nat →
    (List β × List (Option α) × List (Nat × Option α)) × Option ε
  | mods, pl, tr, [] => ((mods, pl, tr), none)
  | mods, pl, tr, i :: rest =>
    match slot pl (i - 1) with
    | none => revLoop ops mods (pl.set i none) tr rest
    | some v =>
      match mods[i - 1]? with
      | none => revLoop ops mods pl tr rest
      | some b =>
        match ops.call b (some v) with
        | Except.error e => ((mods, pl, tr ++ [(i - 1, some v)]), some e)
        | Except.ok r =>
          revLoop ops (mods.set (i - 1) r.1) (pl.set i r.2) (tr ++ [(i - 1, some v)]) rest

/-- Epilogue of `step`: on normal termination, `simulated_steps += 1`
and `return self.pipeline[-1]`; a raised exception propagates (the output
is `Except.error e`), leaving the partially updated pipeline and module
states, and `simulated_steps` unchanged. -/
def stepFinish (s : Simulator α β) :
    (List β × List (Option α) × List (Nat × Option α)) × Option ε →
    Simulator α β × Except ε (Option α) × List (Nat × Option α)
  | ((mods, pl, tr), none) =>
    (Simulator.mk mods pl (s.simulated_steps + 1) s.fast, Except.ok (lastSlot pl), tr)
  | ((mods, pl, tr), some e) =>
    (Simulator.mk mods pl s.simulated_steps s.fast, Except.error e, tr)

/-- The body of `step` after `self.pipeline[0] = input_data`: choose the
warm-up pass or the reverse pass. -/
def stepLoops (ops : StageOps ε α β) (s : Simulator α β) (input : Option α) :
    (List β × List (Option α) × List (Nat × Option α)) × Option ε :=
  if s.simulated_steps == 0 && s.fast then
    fastLoop ops s.module_list (s.pipeline.set 0 input) [] (upFrom 0 s.module_list.length)
  else
    revLoop ops s.module_list (s.pipeline.set 0 input) [] (revRange s.module_list.length)

/-- `Simulator.step(input_data)`: store the input into `pipeline[0]`,
run one of the two passes, and finish.  Returns the updated simulator,
the returned value (or the propagated stage failure), and the list of
stage invocations performed. -/
def Simulator.step (ops : StageOps ε α β) (s : Simulator α β) (input : Option α) :
    Simulator α β × Except ε (Option α) × List (Nat × Option α) :=
  stepFinish s (stepLoops ops s input)

/-- `Simulator.__init__(fast)`: empty chain, `pipeline = [None]`. -/
def Simulator.init (fast : Bool) : Simulator α β :=
  Simulator.mk [] [none] 0 fast

/-- `Simulator.append(new_module)`. -/
def Simulator.append (s : Simulator α β) (m : β) : Simulator α β :=
  Simulator.mk (s.module_list ++ [m]) (s.pipeline ++ [none]) s.simulated_steps s.fast

/-- `Simulator.reset()`: `simulated_steps = 0`, every pipeline slot set
to `None`, `reset()` called on every module in chain order. -/
def Simulator.reset (ops : StageOps ε α β) (s : Simulator α β) : Simulator α β :=
  Simulator.mk (s.module_list.map ops.reset) (s.pipeline.map (fun _ => none)) 0 s.fast

/-- Feed a list of inputs through repeated `step` calls, collecting the
returned values. -/
def runOutputs (ops : StageOps ε α β) : Simulator α β → List (Option α) → List (Except ε (Option α))
  | _, [] => []
  | s, x :: xs => (s.step ops x).2.1 :: runOutputs ops (s.step ops x).1 xs

/-- A client operation on the simulator, for stating reachability under
arbitrary interleavings of `append`, `step` and `reset`. -/
inductive Op (α β : Type) where
  | append (m : β)
  | advance (x : Option α)
  | reset

/-- Apply a list of client operations. -/
def applyOps (ops : StageOps ε α β) : Simulator α β → List (Op α β) → Simulator α β
  | s, [] => s
  | s, Op.append m :: rest => applyOps ops (s.append m) rest
  | s, Op.advance x :: rest => applyOps ops ((s.step ops x).1) rest
  | s, Op.reset :: rest => applyOps ops (s.reset ops) rest

/-- Number of `append` operations in a client history. -/
def countAppend : List (Op α β) → Nat
  | [] => 0
  | Op.append _ :: rest => countAppend rest + 1
  | _ :: rest => countAppend rest

/-- A stateless identity stage: `forward(x): return x` (on `None` the
Python function would likewise return `None`); never raises. -/
def idOps : StageOps Unit α Unit :=
  StageOps.mk (fun b v => Except.ok (b, v)) (fun b => b)

/-- A stateless "+1" stage on integers: `forward(x): return x + 1`; on a
`None` argument the arithmetic raises (modelled by `Except.error ()`). -/
def plusOps : StageOps Unit Int Unit :=
  StageOps.mk
    (fun b v => match v with
      | some x => Except.ok (b, some (x + 1))
      | none => Except.error ())
    (fun b => b)

/-- Stages for the failure scenario: a stage is a `Bool`; `true` means
its `transform` raises on any input, `false` is a well-behaved identity
stage. -/
def failOps : StageOps Unit Int Bool :=
  StageOps.mk
    (fun b v => if b then Except.error () else Except.ok (b, v))
    (fun b => b)

/-- A fresh simulator with `n` identity stages and `fast_start`
disabled, built by `n` `append` calls. -/
def simId (α : Type) (n : Nat) : Simulator α Unit :=
  List.foldl Simulator.append (Simulator.init false) (List.replicate n ())

/-- A fresh simulator with three identity stages and `fast_start`
enabled. -/
def simFast3 (α : Type) : Simulator α Unit :=
  (((Simulator.init true).append ()).append ()).append ()

/-- A fresh simulator with two "+1" stages and `fast_start` disabled. -/
def simPlus2 : Simulator Int Unit :=
  ((Simulator.init false).append ()).append ()

/-- Three stages, the middle one failing, `fast_start` disabled. -/
def simFail0 : Simulator Int Bool :=
  (((Simulator.init false).append false).append true).append false

/-- `simFail0` after one successful `step(7)` (the failing stage is not
yet reached: its input slot is still absent). -/
def simFail1 : Simulator Int Bool :=
  (simFail0.step failOps (some 7)).1

/-! ### Elementary list helpers -/

theorem slot_set_eq : ∀ (l : List (Option α)) (i : Nat) (v : Option α),
    i < l.length → slot (l.set i v) i = v
  | [], _, _, h => nomatch h
  | _ :: _, 0, _, _ => rfl
  | _ :: l, i + 1, v, h => slot_set_eq l i v (Nat.lt_of_succ_lt_succ h)

theorem slot_set_ne : ∀ (l : List (Option α)) (i j : Nat) (v : Option α),
    i ≠ j → slot (l.set i v) j = slot l j
  | [], _, _, _, _ => rfl
  | _ :: _, 0, 0, _, h => absurd rfl h
  | _ :: _, 0, _ + 1, _, _ => rfl
  | _ :: _, _ + 1, 0, _, _ => rfl
  | _ :: l, i + 1, j + 1, v, h =>
    slot_set_ne l i j v (fun hh => h (congrArg Nat.succ hh))

theorem slot_set_zero_none (l : List (Option α)) :
    slot (l.set 0 (none : Option α)) 0 = none := by
  cases l <;> rfl

theorem take_set_le {γ : Type} : ∀ (l : List γ) (i j : Nat) (a : γ),
    j ≤ i → (l.set i a).take j = l.take j
  | [], _, _, _, _ => rfl
  | _ :: _, _, 0, _, _ => rfl
  | _ :: _, 0, _ + 1, _, h => nomatch h
  | x :: l, i + 1, j + 1, a, h =>
    congrArg (List.cons x) (take_set_le l i j a (Nat.le_of_succ_le_succ h))

theorem drop_set_cons {γ : Type} : ∀ (l : List γ) (i : Nat) (a : γ),
    i < l.length → (l.set i a).drop i = a :: l.drop (i + 1)
  | [], _, _, h => nomatch h
  | _ :: _, 0, _, _ => rfl
  | _ :: l, i + 1, a, h => drop_set_cons l i a (Nat.lt_of_succ_lt_succ h)

theorem take_succ_slot : ∀ (l : List (Option α)) (k : Nat),
    k < l.length → l.take (k + 1) = l.take k ++ [slot l k]
  | [], _, h => nomatch h
  | _ :: _, 0, _ => rfl
  | x :: l, k + 1, h =>
    congrArg (List.cons x) (take_succ_slot l k (Nat.lt_of_succ_lt_succ h))

theorem take_append_len {γ : Type} (u v : List γ) (j : Nat) :
    (u ++ v).take (u.length + j) = u ++ v.take j := by
  induction u with
  | nil => simp
  | cons x u ih =>
    have h : (x :: u).length + j = (u.length + j) + 1 := by
      simp [Nat.succ_add]
    rw [h, List.cons_append, List.take_succ_cons, ih]
    rfl

theorem take_rep {γ : Type} (r : Nat) (a : γ) :
    (List.replicate (r + 1) a).take r = List.replicate r a := by
  induction r with
  | zero => rfl
  | succ r ih =>
    rw [List.replicate_succ, List.take_succ_cons, ih, ← List.replicate_succ]

theorem set_unit : ∀ (l : List Unit) (i : Nat) (u : Unit), l.set i u = l
  | [], _, _ => rfl
  | _ :: _, 0, _ => rfl
  | a :: l, i + 1, u => congrArg (List.cons a) (set_unit l i u)

theorem lastSlot_rep : ∀ (r : Nat) (a : Option α),
    lastSlot (List.replicate (r + 1) a) = a
  | 0, _ => rfl
  | r + 1, a => lastSlot_rep r a

theorem lastSlot_append_rep : ∀ (u : List (Option α)) (r : Nat) (a : Option α),
    lastSlot (u ++ List.replicate (r + 1) a) = a
  | [], r, a => lastSlot_rep r a
  | [_], r, a => lastSlot_rep r a
  | _ :: y :: u, r, a => lastSlot_append_rep (y :: u) r a

theorem lastSlot_map_some : ∀ (m : List α) (z : α),
    lastSlot ((z :: m).map some) = some (lastD m z)
  | [], _ => rfl
  | w :: m, _ => lastSlot_map_some m w

/-! ### Length preservation -/

theorem fastLoop_length (ops : StageOps ε α β) (idxs : List Nat)
    (mods : List β) (pl : List (Option α)) (tr : List (Nat × Option α)) :
    (fastLoop ops mods pl tr idxs).1.1.length = mods.length
    ∧ (fastLoop ops mods pl tr idxs).1.2.1.length = pl.length := by
  induction idxs generalizing mods pl tr with
  | nil => exact ⟨rfl, rfl⟩
  | cons i rest ih =>
    cases hm : mods[i]? with
    | none => simpa [fastLoop, hm] using ih mods pl tr
    | some b =>
      cases hc : ops.call b (slot pl i) with
      | error e => simp [fastLoop, hm, hc]
      | ok r =>
        have h := ih (mods.set i r.1) (pl.set (i + 1) r.2) (tr ++ [(i, slot pl i)])
        simpa [fastLoop, hm, hc, List.length_set] using h

theorem revLoop_length (ops : StageOps ε α β) (idxs : List Nat)
    (mods : List β) (pl : List (Option α)) (tr : List (Nat × Option α)) :
    (revLoop ops mods pl tr idxs).1.1.length = mods.length
    ∧ (revLoop ops mods pl tr idxs).1.2.1.length = pl.length := by
  induction idxs generalizing mods pl tr with
  | nil => exact ⟨rfl, rfl⟩
  | cons i rest ih =>
    cases hv : slot pl (i - 1) with
    | none =>
      have h := ih mods (pl.set i none) tr
      simpa [revLoop, hv, List.length_set] using h
    | some v =>
      cases hm : mods[i - 1]? with
      | none => simpa [revLoop, hv, hm] using ih mods pl tr
      | some b =>
        cases hc : ops.call b (some v) with
        | error e => simp [revLoop, hv, hm, hc]
        | ok r =>
          have h := ih (mods.set (i - 1) r.1) (pl.set i r.2) (tr ++ [(i - 1, some v)])
          simpa [revLoop, hv, hm, hc, List.length_set] using h

/-! ### Unfolding lemmas for the two loops -/

theorem fastLoop_cons_none (ops : StageOps ε α β) (mods : List β) (pl : List (Option α))
    (tr : List (Nat × Option α)) (i : Nat) (rest : List Nat) (hb : mods[i]? = none) :
    fastLoop ops mods pl tr (i :: rest) = fastLoop ops mods pl tr rest := by
  simp [fastLoop, hb]

theorem fastLoop_cons_ok (ops : StageOps ε α β) (mods : List β) (pl : List (Option α))
    (tr : List (Nat × Option α)) (i : Nat) (rest : List Nat) (b : β) (r : β × Option α)
    (hb : mods[i]? = some b) (hc : ops.call b (slot pl i) = Except.ok r) :
    fastLoop ops mods pl tr (i :: rest)
      = fastLoop ops (mods.set i r.1) (pl.set (i + 1) r.2) (tr ++ [(i, slot pl i)]) rest := by
  simp [fastLoop, hb, hc]

theorem fastLoop_cons_err (ops : StageOps ε α β) (mods : List β) (pl : List (Option α))
    (tr : List (Nat × Option α)) (i : Nat) (rest : List Nat) (b : β) (e : ε)
    (hb : mods[i]? = some b) (hc : ops.call b (slot pl i) = Except.error e) :
    fastLoop ops mods pl tr (i :: rest) = ((mods, pl, tr ++ [(i, slot pl i)]), some e) := by
  simp [fastLoop, hb, hc]

theorem revLoop_cons_none (ops : StageOps ε α β) (mods : List β) (pl : List (Option α))
    (tr : List (Nat × Option α)) (i : Nat) (rest : List Nat) (hv : slot pl (i - 1) = none) :
    revLoop ops mods pl tr (i :: rest) = revLoop ops mods (pl.set i none) tr rest := by
  simp [revLoop, hv]

theorem revLoop_cons_ok (ops : StageOps ε α β) (mods : List β) (pl : List (Option α))
    (tr : List (Nat × Option α)) (i : Nat) (rest : List Nat) (v : α) (b : β) (r : β × Option α)
    (hv : slot pl (i - 1) = some v) (hb : mods[i - 1]? = some b)
    (hc : ops.call b (some v) = Except.ok r) :
    revLoop ops mods pl tr (i :: rest)
      = revLoop ops (mods.set (i - 1) r.1) (pl.set i r.2) (tr ++ [(i - 1, some v)]) rest := by
  simp [revLoop, hv, hb, hc]

theorem revLoop_cons_err (ops : StageOps ε α β) (mods : List β) (pl : List (Option α))
    (tr : List (Nat × Option α)) (i : Nat) (rest : List Nat) (v : α) (b : β) (e : ε)
    (hv : slot pl (i - 1) = some v) (hb : mods[i - 1]? = some b)
    (hc : ops.call b (some v) = Except.error e) :
    revLoop ops mods pl tr (i :: rest) = ((mods, pl, tr ++ [(i - 1, some v)]), some e) := by
  simp [revLoop, hv, hb, hc]

theorem stepLoops_fast (ops : StageOps ε α β) (s : Simulator α β) (input : Option α)
    (h : (s.simulated_steps == 0 && s.fast) = true) :
    stepLoops ops s input
      = fastLoop ops s.module_list (s.pipeline.set 0 input) [] (upFrom 0 s.module_list.length) := by
  simp [stepLoops, h]

theorem stepLoops_rev (ops : StageOps ε α β) (s : Simulator α β) (input : Option α)
    (h : (s.simulated_steps == 0 && s.fast) = false) :
    stepLoops ops s input
      = revLoop ops s.module_list (s.pipeline.set 0 input) [] (revRange s.module_list.length) := by
  simp [stepLoops, h]

theorem step_length (ops : StageOps ε α β) (s : Simulator α β) (input : Option α) :
    (s.step ops input).1.module_list.length = s.module_list.length
    ∧ (s.step ops input).1.pipeline.length = s.pipeline.length := by
  unfold Simulator.step stepLoops
  by_cases h : (s.simulated_steps == 0 && s.fast) = true
  · rw [if_pos h]
    rcases hfl : fastLoop ops s.module_list (s.pipeline.set 0 input) []
        (upFrom 0 s.module_list.length) with ⟨⟨mods, pl, tr⟩, err⟩
    have hl := fastLoop_length ops (upFrom 0 s.module_list.length)
      s.module_list (s.pipeline.set 0 input) []
    rw [hfl] at hl
    cases err <;> simpa [stepFinish, List.length_set] using hl
  · rw [if_neg h]
    rcases hrl : revLoop ops s.module_list (s.pipeline.set 0 input) []
        (revRange s.module_list.length) with ⟨⟨mods, pl, tr⟩, err⟩
    have hl := revLoop_length ops (revRange s.module_list.length)
      s.module_list (s.pipeline.set 0 input) []
    rw [hrl] at hl
    cases err <;> simpa [stepFinish, List.length_set] using hl

/-! ### The reverse pass on identity stages shifts the pipeline -/

theorem shift_set (pl : List (Option α)) (k : Nat) (h : k + 2 ≤ pl.length) :
    (pl.set (k + 1) (slot pl k)).take 1 ++ (pl.set (k + 1) (slot pl k)).take k
        ++ (pl.set (k + 1) (slot pl k)).drop (k + 1)
      = pl.take 1 ++ pl.take (k + 1) ++ pl.drop (k + 2) := by
  rw [take_set_le pl (k + 1) 1 _ (by omega), take_set_le pl (k + 1) k _ (by omega),
    drop_set_cons pl (k + 1) _ (by omega), take_succ_slot pl k (by omega)]
  simp

theorem revLoop_id_shift : ∀ (k : Nat) (mods : List Unit) (pl : List (Option α))
    (tr : List (Nat × Option α)), k ≤ mods.length → k + 1 ≤ pl.length →
    ∃ tr', revLoop idOps mods pl tr (revRange k)
      = ((mods, pl.take 1 ++ pl.take k ++ pl.drop (k + 1), tr'), none) := by
  intro k
  induction k with
  | zero =>
    intro mods pl tr _ _
    refine ⟨tr, ?_⟩
    cases pl <;> simp [revRange, revLoop]
  | succ k ih =>
    intro mods pl tr hm hp
    have hset : pl.set (k + 1) (slot pl k) = pl.set (k + 1) (slot pl k) := rfl
    have hlen : k + 1 ≤ (pl.set (k + 1) (slot pl k)).length := by
      simp only [List.length_set]; omega
    cases hv : slot pl k with
    | none =>
      obtain ⟨tr', htr⟩ := ih mods (pl.set (k + 1) (slot pl k)) tr
        (Nat.le_of_succ_le hm) hlen
      refine ⟨tr', ?_⟩
      have h1 : revLoop idOps mods pl tr (revRange (k + 1))
          = revLoop idOps mods (pl.set (k + 1) none) tr (revRange k) :=
        revLoop_cons_none idOps mods pl tr (k + 1) (revRange k) hv
      rw [h1, ← hv, htr, shift_set pl k hp]
    | some v =>
      have hm' : k < mods.length := hm
      obtain ⟨b, hb⟩ : ∃ b, mods[k]? = some b := ⟨_, List.getElem?_eq_getElem hm'⟩
      obtain ⟨tr', htr⟩ := ih mods (pl.set (k + 1) (slot pl k)) (tr ++ [(k, some v)])
        (Nat.le_of_succ_le hm) hlen
      refine ⟨tr', ?_⟩
      have hcall : idOps.call b (some v) = Except.ok (b, some v) := rfl
      have h1 : revLoop idOps mods pl tr (revRange (k + 1))
          = revLoop idOps (mods.set k b) (pl.set (k + 1) (some v))
              (tr ++ [(k, some v)]) (revRange k) :=
        revLoop_cons_ok idOps mods pl tr (k + 1) (revRange k) v b (b, some v) hv hb hcall
      have hs := shift_set pl k hp
      rw [hv] at htr hs
      rw [h1, set_unit, htr, hs]

theorem runOutputs_cons (ops : StageOps ε α β) (s : Simulator α β) (x : Option α)
    (xs : List (Option α)) :
    runOutputs ops s (x :: xs) = (s.step ops x).2.1 :: runOutputs ops (s.step ops x).1 xs := rfl

theorem step_id (mods : List Unit) (pl : List (Option α)) (st : Nat) (x : Option α)
    (hlen : pl.length = mods.length + 1) :
    ∃ tr, Simulator.step idOps (Simulator.mk mods pl st false) x
      = (Simulator.mk mods ((pl.set 0 x).take 1 ++ (pl.set 0 x).take mods.length) (st + 1) false,
         Except.ok (lastSlot ((pl.set 0 x).take 1 ++ (pl.set 0 x).take mods.length)), tr) := by
  obtain ⟨tr', htr⟩ := revLoop_id_shift mods.length mods (pl.set 0 x) [] (Nat.le_refl _)
    (by simp [List.length_set, hlen])
  have hdrop : (pl.set 0 x).drop (mods.length + 1) = [] := by
    apply List.drop_eq_nil_of_le
    simp [List.length_set, hlen]
  rw [hdrop, List.append_nil] at htr
  refine ⟨tr', ?_⟩
  have hcond : ((Simulator.mk mods pl st false).simulated_steps == 0
      && (Simulator.mk mods pl st false).fast) = false := by simp
  have h2 : stepLoops idOps (Simulator.mk mods pl st false) x
      = revLoop idOps mods (pl.set 0 x) [] (revRange mods.length) :=
    stepLoops_rev idOps (Simulator.mk mods pl st false) x hcond
  show stepFinish (Simulator.mk mods pl st false)
      (stepLoops idOps (Simulator.mk mods pl st false) x) = _
  rw [h2, htr]
  rfl

theorem step_id_canon (x' y : α) (l : List α) (r st : Nat) :
    ∃ tr, Simulator.step idOps
        (Simulator.mk (List.replicate (l.length + r + 1) ())
          (some y :: (l.map some ++ List.replicate (r + 1) none)) st false) (some x')
      = (Simulator.mk (List.replicate (l.length + r + 1) ())
          (some x' :: (some x' :: (l.map some ++ List.replicate r none))) (st + 1) false,
         Except.ok (lastSlot (some x' :: (some x' :: (l.map some ++ List.replicate r none)))),
         tr) := by
  have hlen : (some y :: (l.map some ++ List.replicate (r + 1) none)).length
      = (List.replicate (l.length + r + 1) (() : Unit)).length + 1 := by
    simp only [List.length_cons, List.length_append, List.length_map, List.length_replicate]
    omega
  obtain ⟨tr, htr⟩ := step_id (List.replicate (l.length + r + 1) ()) _ st (some x') hlen
  refine ⟨tr, ?_⟩
  have hs : (some y :: (l.map some ++ List.replicate (r + 1) none)).set 0 (some x')
      = some x' :: (l.map some ++ List.replicate (r + 1) none) := rfl
  have hpl : ((some y :: (l.map some ++ List.replicate (r + 1) none)).set 0 (some x')).take 1
        ++ ((some y :: (l.map some ++ List.replicate (r + 1) none)).set 0 (some x')).take
            (List.replicate (l.length + r + 1) (() : Unit)).length
      = some x' :: (some x' :: (l.map some ++ List.replicate r none)) := by
    rw [hs, List.length_replicate]
    have h2 : (some x' :: (l.map some ++ List.replicate (r + 1) none)).take (l.length + r + 1)
        = some x' :: (l.map some ++ List.replicate r none) := by
      rw [show l.length + r + 1 = (l.length + r) + 1 from rfl, List.take_succ_cons]
      have h3 : (l.map some ++ List.replicate (r + 1) (none : Option α)).take (l.length + r)
          = l.map some ++ (List.replicate (r + 1) none).take r := by
        have h4 := take_append_len (l.map some) (List.replicate (r + 1) (none : Option α)) r
        rwa [List.length_map] at h4
      rw [h3, take_rep]
    rw [h2]
    rfl
  rw [htr, hpl]

theorem run_id_canon : ∀ (ws : List α) (w y z : α) (l₂ : List α) (st : Nat),
    runOutputs idOps
      (Simulator.mk (List.replicate ((z :: l₂).length + ws.length + 1) ())
        (some y :: ((z :: l₂).map some ++ List.replicate (ws.length + 1) none)) st false)
      (some w :: ws.map some)
    = List.replicate ws.length (Except.ok none) ++ [Except.ok (some (lastD l₂ z))] := by
  intro ws
  induction ws with
  | nil =>
    intro w y z l₂ st
    obtain ⟨tr, htr⟩ := step_id_canon w y (z :: l₂) (List.length ([] : List α)) st
    rw [runOutputs_cons, htr]
    dsimp only
    have hout : lastSlot (some w :: (some w :: ((z :: l₂).map some
        ++ List.replicate (List.length ([] : List α)) none))) = some (lastD l₂ z) := by
      have h1 : some w :: (some w :: ((z :: l₂).map some
          ++ List.replicate (List.length ([] : List α)) (none : Option α)))
          = (w :: (w :: z :: l₂)).map some := by
        simp
      rw [h1, lastSlot_map_some]
      rfl
    rw [hout]
    rfl
  | cons u ws' ih =>
    intro w y z l₂ st
    obtain ⟨tr, htr⟩ := step_id_canon w y (z :: l₂) (List.length (u :: ws')) st
    rw [runOutputs_cons, htr]
    dsimp only
    have hout : lastSlot (some w :: (some w :: ((z :: l₂).map some
        ++ List.replicate (List.length (u :: ws')) (none : Option α)))) = none := by
      have h1 : some w :: (some w :: ((z :: l₂).map some
          ++ List.replicate (List.length (u :: ws')) (none : Option α)))
          = (some w :: some w :: (z :: l₂).map some)
            ++ List.replicate (ws'.length + 1) (none : Option α) := by
        simp
      rw [h1, lastSlot_append_rep]
    rw [hout]
    have hmods : (z :: l₂).length + (u :: ws').length + 1
        = (w :: z :: l₂).length + ws'.length + 1 := by
      simp only [List.length_cons]
      omega
    have hpl : some w :: (some w :: ((z :: l₂).map some
          ++ List.replicate (List.length (u :: ws')) (none : Option α)))
        = some w :: ((w :: z :: l₂).map some ++ List.replicate (ws'.length + 1) none) := by
      simp
    rw [hmods, hpl]
    rw [show List.map some (u :: ws') = some u :: List.map some ws' from rfl]
    have hrun := ih u w w (z :: l₂) (st + 1)
    rw [hrun]
    have hlast : lastD (z :: l₂) w = lastD l₂ z := rfl
    rw [hlast]
    simp [List.replicate_succ]

theorem foldl_append_mk : ∀ (ms : List β) (s : Simulator α β),
    List.foldl Simulator.append s ms
      = Simulator.mk (s.module_list ++ ms) (s.pipeline ++ List.replicate ms.length none)
          s.simulated_steps s.fast := by
  intro ms
  induction ms with
  | nil =>
    intro s
    cases s
    simp
  | cons m ms ih =>
    intro s
    rw [List.foldl_cons, ih]
    simp [Simulator.append, List.replicate_succ]

theorem simId_eq (n : Nat) :
    simId α n = Simulator.mk (List.replicate n ()) (none :: List.replicate n none) 0 false := by
  unfold simId
  rw [foldl_append_mk]
  simp [Simulator.init]

/-- C2 — Absence-until-latency: with `fast_start` disabled and `n = xs.length + 1 ≥ 1`
identity stages, a freshly constructed simulator returns absent from each of the
first `n - 1` advance calls, and the `n`-th call returns the very first injected
input, unmodified. -/
theorem c2_absence_until_latency (x : α) (xs : List α) :
    runOutputs idOps (simId α (xs.length + 1)) (some x :: xs.map some)
      = List.replicate xs.length (Except.ok none) ++ [Except.ok (some x)] := by
  cases xs with
  | nil => rfl
  | cons u xs' =>
    rw [simId_eq]
    obtain ⟨tr, htr⟩ := step_id (List.replicate ((u :: xs').length + 1) ())
      (none :: List.replicate ((u :: xs').length + 1) none) 0 (some x) (by simp)
    rw [runOutputs_cons, htr]
    dsimp only
    have hn : (List.replicate ((u :: xs').length + 1) (() : Unit)).length
        = (u :: xs').length + 1 := List.length_replicate _ _
    have hnew : ((none :: List.replicate ((u :: xs').length + 1) none).set 0 (some x)).take 1
          ++ ((none :: List.replicate ((u :: xs').length + 1) none).set 0 (some x)).take
              (List.replicate ((u :: xs').length + 1) (() : Unit)).length
        = some x :: (some x :: List.replicate ((u :: xs').length) (none : Option α)) := by
      rw [hn]
      rw [show ((none :: List.replicate ((u :: xs').length + 1) none).set 0 (some x))
          = some x :: List.replicate ((u :: xs').length + 1) (none : Option α) from rfl]
      rw [show List.take 1 (some x :: List.replicate ((u :: xs').length + 1)
          (none : Option α)) = [some x] from rfl]
      rw [List.take_succ_cons, take_rep]
      rfl
    rw [hnew]
    have hlast : lastSlot (some x :: (some x
        :: List.replicate ((u :: xs').length) (none : Option α))) = none := by
      have h1 : some x :: (some x :: List.replicate ((u :: xs').length) (none : Option α))
          = ([some x, some x] ++ List.replicate (xs'.length + 1) (none : Option α)) := by
        simp
      rw [h1, lastSlot_append_rep]
    rw [hlast]
    have e1 : (u :: xs').length + 1 = (x :: ([] : List α)).length + xs'.length + 1 := by
      simp only [List.length_cons, List.length_nil]
      omega
    have e2 : some x :: (some x :: List.replicate ((u :: xs').length) (none : Option α))
        = some x :: ((x :: ([] : List α)).map some
            ++ List.replicate (xs'.length + 1) none) := by
      simp
    rw [e1, e2]
    rw [show List.map some (u :: xs') = some u :: List.map some xs' from rfl]
    rw [run_id_canon xs' u x x [] (0 + 1)]
    simp [List.replicate_succ, lastD]

theorem stepFinish_pipeline (s : Simulator α β)
    (r : (List β × List (Option α) × List (Nat × Option α)) × Option ε) :
    (stepFinish s r).1.pipeline = r.1.2.1 := by
  rcases r with ⟨⟨mods, pl, tr⟩, err⟩
  cases err <;> rfl

theorem stepFinish_trace (s : Simulator α β)
    (r : (List β × List (Option α) × List (Nat × Option α)) × Option ε) :
    (stepFinish s r).2.2 = r.1.2.2 := by
  rcases r with ⟨⟨mods, pl, tr⟩, err⟩
  cases err <;> rfl

theorem revLoop_cons_skip (ops : StageOps ε α β) (mods : List β) (pl : List (Option α))
    (tr : List (Nat × Option α)) (i : Nat) (rest : List Nat) (v : α)
    (hv : slot pl (i - 1) = some v) (hb : mods[i - 1]? = none) :
    revLoop ops mods pl tr (i :: rest) = revLoop ops mods pl tr rest := by
  simp [revLoop, hv, hb]

/-! ### Invariants under arbitrary client histories -/

theorem applyOps_length (ops : StageOps ε α β) : ∀ (l : List (Op α β)) (s : Simulator α β),
    s.pipeline.length = s.module_list.length + 1 →
    (applyOps ops s l).pipeline.length = (applyOps ops s l).module_list.length + 1
    ∧ (applyOps ops s l).module_list.length = s.module_list.length + countAppend l := by
  intro l
  induction l with
  | nil =>
    intro s h
    exact ⟨h, by simp [applyOps, countAppend]⟩
  | cons op rest ih =>
    intro s h
    cases op with
    | append m =>
      have h' : (s.append m).pipeline.length = (s.append m).module_list.length + 1 := by
        simp [Simulator.append, h]
      simp only [applyOps, countAppend]
      refine ⟨(ih _ h').1, ?_⟩
      rw [(ih _ h').2]
      simp [Simulator.append]
      omega
    | advance x =>
      have hs := step_length ops s x
      have h' : ((s.step ops x).1).pipeline.length
          = ((s.step ops x).1).module_list.length + 1 := by
        rw [hs.1, hs.2, h]
      simp only [applyOps, countAppend]
      refine ⟨(ih _ h').1, ?_⟩
      rw [(ih _ h').2, hs.1]
    | reset =>
      have h' : (s.reset ops).pipeline.length = (s.reset ops).module_list.length + 1 := by
        simp [Simulator.reset, h]
      simp only [applyOps, countAppend]
      refine ⟨(ih _ h').1, ?_⟩
      rw [(ih _ h').2]
      simp [Simulator.reset]

/-! ### Claim theorems -/

/-- C1 counterexample: with two "+1" stages and `fast_start` disabled, the
call sequence `advance(10)`, `advance(20)`, `advance(30)` does **not**
return absent, absent, `12` — the code already returns `12` on the second
call. -/
theorem c1_counterexample :
    ¬ (runOutputs plusOps simPlus2 [some 10, some 20, some 30]
        = [Except.ok none, Except.ok none, Except.ok (some 12)]) := by
  decide

/-- C1 amended — Reverse-pass latency: with two "+1" stages and
`fast_start` disabled, `advance(10)`, `advance(20)`, `advance(30)` return
absent, `12` and `22` respectively: the step-1 input emerges after two
"+1" stages already on the second call (the output appears on the `n`-th
call, not the `(n+1)`-th). -/
theorem c1_reverse_latency_amended :
    runOutputs plusOps simPlus2 [some 10, some 20, some 30]
      = [Except.ok none, Except.ok (some 12), Except.ok (some 22)] := by
  decide

/-- C3 — Fast warm-up immediacy: with `fast_start` enabled and three
identity stages, the very first `advance(x)` returns `x` immediately, the
warm-up pass having filled the whole buffer left-to-right with the freshly
written value at each slot. -/
theorem c3_fast_warmup_immediacy (x : α) :
    ((simFast3 α).step idOps (some x)).2.1 = Except.ok (some x)
    ∧ ((simFast3 α).step idOps (some x)).1.pipeline = [some x, some x, some x, some x] :=
  ⟨rfl, rfl⟩

/-- C10 — Empty chain: with zero stages, any `advance(x)` call (in either
mode, from any zero-stage state) returns `x` itself immediately, the
single slot holds `x`, and no stage is invoked (empty invocation list). -/
theorem c10_zero_stages (ops : StageOps ε α β) (s : Simulator α β) (x : α)
    (h1 : s.module_list = []) (h2 : s.pipeline.length = 1) :
    s.step ops (some x)
      = (Simulator.mk [] [some x] (s.simulated_steps + 1) s.fast, Except.ok (some x), []) := by
  obtain ⟨a, ha⟩ := List.length_eq_one.mp h2
  have hloops : stepLoops ops s (some x) = (([], [some x], []), none) := by
    unfold stepLoops
    rw [h1, ha]
    split <;> simp [fastLoop, revLoop, upFrom, revRange, List.set]
  show stepFinish s (stepLoops ops s (some x)) = _
  rw [hloops]
  rfl

/-- Closed witness for `c10_zero_stages`. -/
theorem c10_zero_stages_witness :
    (Simulator.init true : Simulator Int Unit).step idOps (some 5)
      = (Simulator.mk [] [some 5] 1 true, Except.ok (some 5), []) :=
  c10_zero_stages idOps (Simulator.init true) 5 rfl rfl

/-- C5 — Buffer length invariant: construction creates a one-slot buffer
holding absent; `append` appends exactly one absent slot; and after any
history of `append`/`advance`/`reset` operations containing `k` appends,
`len(pipeline) = k + 1 = len(module_list) + 1`. -/
theorem c5_buffer_length_invariant (ops : StageOps ε α β) (fast : Bool) (l : List (Op α β)) :
    (Simulator.init fast : Simulator α β).pipeline = [none]
    ∧ (∀ (s : Simulator α β) (m : β), (s.append m).pipeline = s.pipeline ++ [none])
    ∧ (applyOps ops (Simulator.init fast) l).pipeline.length = countAppend l + 1
    ∧ (applyOps ops (Simulator.init fast) l).pipeline.length
        = (applyOps ops (Simulator.init fast) l).module_list.length + 1 := by
  have h := applyOps_length ops l (Simulator.init fast) (by simp [Simulator.init])
  refine ⟨rfl, fun s m => rfl, ?_, h.1⟩
  rw [h.1, h.2]
  simp [Simulator.init]

/-- C6 — Reset: `reset()` produces exactly the state of a freshly
constructed simulator (same `fast_start`) with the reset stage chain
appended: `simulated_steps = 0`, every slot absent, `reset` applied to
every stage in chain order, chain length unchanged; hence any subsequent
`advance` sequence reproduces the fresh instance's behavior. -/
theorem c6_reset_behavior (ops : StageOps ε α β) (s : Simulator α β)
    (h : s.pipeline.length = s.module_list.length + 1) :
    s.reset ops
      = List.foldl Simulator.append (Simulator.init s.fast) (s.module_list.map ops.reset)
    ∧ (s.reset ops).simulated_steps = 0
    ∧ (∀ c ∈ (s.reset ops).pipeline, c = none)
    ∧ (s.reset ops).module_list = s.module_list.map ops.reset
    ∧ (s.reset ops).fast = s.fast
    ∧ (s.reset ops).module_list.length = s.module_list.length
    ∧ ∀ inputs, runOutputs ops (s.reset ops) inputs
        = runOutputs ops (List.foldl Simulator.append (Simulator.init s.fast)
            (s.module_list.map ops.reset)) inputs := by
  have hmain : s.reset ops
      = List.foldl Simulator.append (Simulator.init s.fast) (s.module_list.map ops.reset) := by
    rw [foldl_append_mk]
    unfold Simulator.reset Simulator.init
    have hp : s.pipeline.map (fun _ => (none : Option α))
        = List.replicate s.pipeline.length none := by
      simp [List.map_const']
    simp [hp, h, List.length_map, List.replicate_succ]
  refine ⟨hmain, rfl, ?_, rfl, rfl, by simp [Simulator.reset], fun inputs => by rw [hmain]⟩
  intro c hc
  rcases List.mem_map.mp hc with ⟨a, _, hac⟩
  exact hac.symm

/-- Closed witness for `c6_reset_behavior`. -/
theorem c6_reset_behavior_witness :
    (((Simulator.init true : Simulator Int Unit).append ()).reset idOps).simulated_steps = 0 :=
  (c6_reset_behavior idOps ((Simulator.init true).append ()) rfl).2.1

theorem revRange_ge_one : ∀ (n : Nat), ∀ i ∈ revRange n, 1 ≤ i := by
  intro n
  induction n with
  | zero => intro i hi; simp [revRange] at hi
  | succ n ih =>
    intro i hi
    rcases List.mem_cons.mp hi with h | h
    · omega
    · exact ih i h

theorem revLoop_slot_zero (ops : StageOps ε α β) : ∀ (idxs : List Nat) (mods : List β)
    (pl : List (Option α)) (tr : List (Nat × Option α)), (∀ i ∈ idxs, 1 ≤ i) →
    slot (revLoop ops mods pl tr idxs).1.2.1 0 = slot pl 0 := by
  intro idxs
  induction idxs with
  | nil => intro mods pl tr _; rfl
  | cons i rest ih =>
    intro mods pl tr hge
    have hi : 1 ≤ i := hge i (by simp)
    have hrest : ∀ j ∈ rest, 1 ≤ j := fun j hj => hge j (List.mem_cons_of_mem i hj)
    cases hv : slot pl (i - 1) with
    | none =>
      rw [revLoop_cons_none ops mods pl tr i rest hv, ih mods (pl.set i none) tr hrest]
      exact slot_set_ne pl i 0 none (by omega)
    | some v =>
      cases hb : mods[i - 1]? with
      | none =>
        rw [revLoop_cons_skip ops mods pl tr i rest v hv hb]
        exact ih mods pl tr hrest
      | some b =>
        cases hc : ops.call b (some v) with
        | error e => rw [revLoop_cons_err ops mods pl tr i rest v b e hv hb hc]
        | ok r =>
          rw [revLoop_cons_ok ops mods pl tr i rest v b r hv hb hc,
            ih _ _ _ hrest]
          exact slot_set_ne pl i 0 r.2 (by omega)

theorem revLoop_trace_some (ops : StageOps ε α β) : ∀ (idxs : List Nat) (mods : List β)
    (pl : List (Option α)) (tr : List (Nat × Option α)),
    (∀ p ∈ tr, p.2.isSome = true) →
    ∀ p ∈ (revLoop ops mods pl tr idxs).1.2.2, p.2.isSome = true := by
  intro idxs
  induction idxs with
  | nil => intro mods pl tr h; exact h
  | cons i rest ih =>
    intro mods pl tr h
    have hext : ∀ (v : α), ∀ p ∈ tr ++ [(i - 1, some v)], p.2.isSome = true := by
      intro v p hp
      rcases List.mem_append.mp hp with h1 | h1
      · exact h p h1
      · rcases List.mem_singleton.mp h1 with rfl
        rfl
    cases hv : slot pl (i - 1) with
    | none =>
      rw [revLoop_cons_none ops mods pl tr i rest hv]
      exact ih mods (pl.set i none) tr h
    | some v =>
      cases hb : mods[i - 1]? with
      | none =>
        rw [revLoop_cons_skip ops mods pl tr i rest v hv hb]
        exact ih mods pl tr h
      | some b =>
        cases hc : ops.call b (some v) with
        | error e =>
          rw [revLoop_cons_err ops mods pl tr i rest v b e hv hb hc]
          exact hext v
        | ok r =>
          rw [revLoop_cons_ok ops mods pl tr i rest v b r hv hb hc]
          exact ih _ _ _ (hext v)

/-- C7 counterexample: supplying an absent external input to `advance` on
a one-identity-stage, `fast_start`-disabled simulator is **not** rejected
with an error: the call returns normally (`ok` absent) and the absent
value is stored into `buffer[0]`. -/
theorem c7_counterexample :
    (((Simulator.init false : Simulator Int Unit).append ()).step idOps none).2.1
        ≠ Except.error ()
    ∧ (((Simulator.init false : Simulator Int Unit).append ()).step idOps none).2.1
        = Except.ok none
    ∧ (((Simulator.init false : Simulator Int Unit).append ()).step idOps none).1.pipeline
        = [none, none] := by
  refine ⟨by decide, rfl, rfl⟩

/-- C7 amended: an absent external input is not rejected; it is stored
into `buffer[0]` and, in the latency-accurate pass, propagates as a
bubble — no stage is ever invoked with the absent value. -/
theorem c7_absent_input_not_rejected (ops : StageOps ε α β) (s : Simulator α β)
    (h : s.fast = false) :
    slot ((s.step ops none).1).pipeline 0 = none
    ∧ ∀ p ∈ (s.step ops none).2.2, p.2.isSome = true := by
  have hcond : (s.simulated_steps == 0 && s.fast) = false := by
    rw [h]
    simp
  have hl : stepLoops ops s none
      = revLoop ops s.module_list (s.pipeline.set 0 none) [] (revRange s.module_list.length) :=
    stepLoops_rev ops s none hcond
  constructor
  · show slot (stepFinish s (stepLoops ops s none)).1.pipeline 0 = none
    rw [stepFinish_pipeline, hl]
    rw [revLoop_slot_zero ops _ _ _ _ (revRange_ge_one _)]
    exact slot_set_zero_none s.pipeline
  · show ∀ p ∈ (stepFinish s (stepLoops ops s none)).2.2, p.2.isSome = true
    rw [stepFinish_trace, hl]
    exact revLoop_trace_some ops _ _ _ _ (by intro p hp; simp at hp)

/-- Closed witness for `c7_absent_input_not_rejected`. -/
theorem c7_absent_input_not_rejected_witness :
    slot ((((Simulator.init false : Simulator Int Unit).append ()).step idOps none).1).pipeline 0
      = none :=
  (c7_absent_input_not_rejected idOps ((Simulator.init false).append ()) rfl).1

theorem fastLoop_trace_some (ops : StageOps ε α β)
    (hops : ∀ (b : β) (x : α) (r : β × Option α),
      ops.call b (some x) = Except.ok r → r.2.isSome = true) :
    ∀ (k a : Nat) (mods : List β) (pl : List (Option α)) (tr : List (Nat × Option α)),
    (∀ p ∈ tr, p.2.isSome = true) →
    (slot pl a).isSome = true →
    a + k ≤ mods.length →
    a + k + 1 ≤ pl.length →
    ∀ p ∈ (fastLoop ops mods pl tr (upFrom a k)).1.2.2, p.2.isSome = true := by
  intro k
  induction k with
  | zero =>
    intro a mods pl tr htr _ _ _
    exact htr
  | succ k ih =>
    intro a mods pl tr htr hslot hm hp
    rw [show upFrom a (k + 1) = a :: upFrom (a + 1) k from rfl]
    obtain ⟨v, hv⟩ := Option.isSome_iff_exists.mp hslot
    have ha : a < mods.length := by omega
    obtain ⟨b, hb⟩ : ∃ b, mods[a]? = some b := ⟨_, List.getElem?_eq_getElem ha⟩
    have hext : ∀ p ∈ tr ++ [(a, slot pl a)], p.2.isSome = true := by
      intro p hp'
      rcases List.mem_append.mp hp' with h1 | h1
      · exact htr p h1
      · rcases List.mem_singleton.mp h1 with rfl
        simpa using hslot
    cases hc : ops.call b (slot pl a) with
    | error e =>
      rw [fastLoop_cons_err ops mods pl tr a (upFrom (a + 1) k) b e hb hc]
      exact hext
    | ok r =>
      rw [fastLoop_cons_ok ops mods pl tr a (upFrom (a + 1) k) b r hb hc]
      apply ih (a + 1) (mods.set a r.1) (pl.set (a + 1) r.2) (tr ++ [(a, slot pl a)]) hext
      · rw [slot_set_eq pl (a + 1) r.2 (by omega)]
        exact hops b v r (by rwa [hv] at hc)
      · simp only [List.length_set]
        omega
      · simp only [List.length_set]
        omega

/-- Under the stage contract (a stage invoked on a real signal returns a
real signal on success), a `step` performed with a real (non-absent)
external input never invokes a stage on an absent argument, provided the
buffer-length invariant holds. -/
theorem step_trace_some (ops : StageOps ε α β) (s : Simulator α β) (x : α)
    (hops : ∀ (b : β) (x' : α) (r : β × Option α),
      ops.call b (some x') = Except.ok r → r.2.isSome = true)
    (hlen : s.pipeline.length = s.module_list.length + 1) :
    ∀ p ∈ (s.step ops (some x)).2.2, p.2.isSome = true := by
  show ∀ p ∈ (stepFinish s (stepLoops ops s (some x))).2.2, p.2.isSome = true
  rw [stepFinish_trace]
  by_cases hcond : (s.simulated_steps == 0 && s.fast) = true
  · rw [stepLoops_fast ops s (some x) hcond]
    apply fastLoop_trace_some ops hops s.module_list.length 0 s.module_list
      (s.pipeline.set 0 (some x)) []
    · intro p hp
      simp at hp
    · rw [slot_set_eq s.pipeline 0 (some x) (by omega)]
      rfl
    · omega
    · simp only [List.length_set]
      omega
  · rw [stepLoops_rev ops s (some x) (by simpa using hcond)]
    exact revLoop_trace_some ops _ _ _ _ (by intro p hp; simp at hp)

/-- C4 — Bubble propagation safety: from every reachable simulator state
(any history of `append`/`advance`/`reset` operations on a fresh
simulator), an `advance` call with a real (non-absent) input never
invokes a stage's transform on an absent argument — every recorded
invocation carries a present value; absent slots are skipped. -/
theorem c4_no_absent_invocation (ops : StageOps ε α β) (fast : Bool) (l : List (Op α β))
    (x : α)
    (hops : ∀ (b : β) (x' : α) (r : β × Option α),
      ops.call b (some x') = Except.ok r → r.2.isSome = true) :
    ∀ p ∈ ((applyOps ops (Simulator.init fast) l).step ops (some x)).2.2,
      p.2.isSome = true := by
  apply step_trace_some ops _ x hops
  exact (applyOps_length ops l (Simulator.init fast) (by simp [Simulator.init])).1

/-- Closed witness for `c4_no_absent_invocation`. -/
theorem c4_no_absent_invocation_witness :
    (((applyOps idOps (Simulator.init true) [Op.append (), Op.append ()]).step idOps
        (some (5 : Int))).2.2).all (fun p => p.2.isSome) = true := by
  have hops : ∀ (b : Unit) (x' : Int) (r : Unit × Option Int),
      idOps.call b (some x') = Except.ok r → r.2.isSome = true := by
    intro b x' r hc
    injection hc with h
    subst h
    rfl
  exact List.all_eq_true.mpr
    (fun p hp => c4_no_absent_invocation idOps true [Op.append (), Op.append ()] 5 hops p hp)

theorem fastLoop_trace_sublist (ops : StageOps ε α β) : ∀ (idxs : List Nat) (mods : List β)
    (pl : List (Option α)) (tr : List (Nat × Option α)),
    ∃ new, (fastLoop ops mods pl tr idxs).1.2.2 = tr ++ new
      ∧ (new.map Prod.fst).Sublist idxs := by
  intro idxs
  induction idxs with
  | nil =>
    intro mods pl tr
    exact ⟨[], by simp [fastLoop], by simp⟩
  | cons i rest ih =>
    intro mods pl tr
    cases hb : mods[i]? with
    | none =>
      obtain ⟨new, h1, h2⟩ := ih mods pl tr
      refine ⟨new, ?_, h2.cons i⟩
      rw [fastLoop_cons_none ops mods pl tr i rest hb]
      exact h1
    | some b =>
      cases hc : ops.call b (slot pl i) with
      | error e =>
        refine ⟨[(i, slot pl i)], ?_, ?_⟩
        · rw [fastLoop_cons_err ops mods pl tr i rest b e hb hc]
        · simp
      | ok r =>
        obtain ⟨new, h1, h2⟩ := ih (mods.set i r.1) (pl.set (i + 1) r.2) (tr ++ [(i, slot pl i)])
        refine ⟨(i, slot pl i) :: new, ?_, ?_⟩
        · rw [fastLoop_cons_ok ops mods pl tr i rest b r hb hc, h1]
          simp
        · simpa using List.Sublist.cons₂ i h2

theorem revLoop_trace_sublist (ops : StageOps ε α β) : ∀ (idxs : List Nat) (mods : List β)
    (pl : List (Option α)) (tr : List (Nat × Option α)),
    ∃ new, (revLoop ops mods pl tr idxs).1.2.2 = tr ++ new
      ∧ (new.map Prod.fst).Sublist (idxs.map (fun j => j - 1)) := by
  intro idxs
  induction idxs with
  | nil =>
    intro mods pl tr
    exact ⟨[], by simp [revLoop], by simp⟩
  | cons i rest ih =>
    intro mods pl tr
    rw [show (i :: rest).map (fun j => j - 1) = (i - 1) :: rest.map (fun j => j - 1) from rfl]
    cases hv : slot pl (i - 1) with
    | none =>
      obtain ⟨new, h1, h2⟩ := ih mods (pl.set i none) tr
      refine ⟨new, ?_, h2.cons (i - 1)⟩
      rw [revLoop_cons_none ops mods pl tr i rest hv]
      exact h1
    | some v =>
      cases hb : mods[i - 1]? with
      | none =>
        obtain ⟨new, h1, h2⟩ := ih mods pl tr
        refine ⟨new, ?_, h2.cons (i - 1)⟩
        rw [revLoop_cons_skip ops mods pl tr i rest v hv hb]
        exact h1
      | some b =>
        cases hc : ops.call b (some v) with
        | error e =>
          refine ⟨[(i - 1, some v)], ?_, ?_⟩
          · rw [revLoop_cons_err ops mods pl tr i rest v b e hv hb hc]
          · simp
        | ok r =>
          obtain ⟨new, h1, h2⟩ := ih (mods.set (i - 1) r.1) (pl.set i r.2)
            (tr ++ [(i - 1, some v)])
          refine ⟨(i - 1, some v) :: new, ?_, ?_⟩
          · rw [revLoop_cons_ok ops mods pl tr i rest v b r hv hb hc, h1]
            simp
          · simpa using List.Sublist.cons₂ (i - 1) h2

theorem upFrom_mem_ge : ∀ (k a : Nat), ∀ i ∈ upFrom a k, a ≤ i := by
  intro k
  induction k with
  | zero => intro a i hi; simp [upFrom] at hi
  | succ k ih =>
    intro a i hi
    rcases List.mem_cons.mp hi with h | h
    · omega
    · have := ih (a + 1) i h
      omega

theorem upFrom_nodup : ∀ (k a : Nat), (upFrom a k).Nodup := by
  intro k
  induction k with
  | zero => intro a; simp [upFrom]
  | succ k ih =>
    intro a
    rw [show upFrom a (k + 1) = a :: upFrom (a + 1) k from rfl]
    refine List.nodup_cons.mpr ⟨?_, ih (a + 1)⟩
    intro hmem
    have := upFrom_mem_ge k (a + 1) a hmem
    omega

theorem revRange_map_pred : ∀ (n : Nat),
    (revRange n).map (fun i => i - 1) = (List.range n).reverse := by
  intro n
  induction n with
  | zero => rfl
  | succ n ih =>
    rw [show revRange (n + 1) = (n + 1) :: revRange n from rfl]
    rw [List.map_cons, ih, List.range_succ, List.reverse_append]
    simp

/-- C9 — No double invocation per time unit: during any single `advance`
call (warm-up or latency-accurate), the recorded stage indices of the
invocation list are pairwise distinct: each stage's transform is invoked
at most once. -/
theorem c9_at_most_once_per_step (ops : StageOps ε α β) (s : Simulator α β)
    (input : Option α) :
    (((s.step ops input).2.2).map Prod.fst).Nodup := by
  show (((stepFinish s (stepLoops ops s input)).2.2).map Prod.fst).Nodup
  rw [stepFinish_trace]
  by_cases hcond : (s.simulated_steps == 0 && s.fast) = true
  · rw [stepLoops_fast ops s input hcond]
    obtain ⟨new, h1, h2⟩ := fastLoop_trace_sublist ops (upFrom 0 s.module_list.length)
      s.module_list (s.pipeline.set 0 input) []
    rw [h1]
    simp only [List.nil_append]
    exact List.Nodup.sublist h2 (upFrom_nodup _ 0)
  · rw [stepLoops_rev ops s input (by simpa using hcond)]
    obtain ⟨new, h1, h2⟩ := revLoop_trace_sublist ops (revRange s.module_list.length)
      s.module_list (s.pipeline.set 0 input) []
    rw [h1]
    simp only [List.nil_append]
    refine List.Nodup.sublist h2 ?_
    rw [revRange_map_pred]
    exact List.nodup_reverse.mpr (List.nodup_range _)

theorem fastLoop_append_err (ops : StageOps ε α β) : ∀ (idxs1 idxs2 : List Nat)
    (mods : List β) (pl : List (Option α)) (tr : List (Nat × Option α))
    (st : List β × List (Option α) × List (Nat × Option α)) (e : ε),
    fastLoop ops mods pl tr idxs1 = (st, some e) →
    fastLoop ops mods pl tr (idxs1 ++ idxs2) = (st, some e) := by
  intro idxs1
  induction idxs1 with
  | nil =>
    intro idxs2 mods pl tr st e h
    simp [fastLoop] at h
  | cons i rest ih =>
    intro idxs2 mods pl tr st e h
    rw [List.cons_append]
    cases hb : mods[i]? with
    | none =>
      rw [fastLoop_cons_none ops mods pl tr i (rest ++ idxs2) hb]
      rw [fastLoop_cons_none ops mods pl tr i rest hb] at h
      exact ih idxs2 mods pl tr st e h
    | some b =>
      cases hc : ops.call b (slot pl i) with
      | error e' =>
        rw [fastLoop_cons_err ops mods pl tr i (rest ++ idxs2) b e' hb hc]
        rw [fastLoop_cons_err ops mods pl tr i rest b e' hb hc] at h
        exact h
      | ok r =>
        rw [fastLoop_cons_ok ops mods pl tr i (rest ++ idxs2) b r hb hc]
        rw [fastLoop_cons_ok ops mods pl tr i rest b r hb hc] at h
        exact ih idxs2 _ _ _ st e h

theorem revLoop_append_err (ops : StageOps ε α β) : ∀ (idxs1 idxs2 : List Nat)
    (mods : List β) (pl : List (Option α)) (tr : List (Nat × Option α))
    (st : List β × List (Option α) × List (Nat × Option α)) (e : ε),
    revLoop ops mods pl tr idxs1 = (st, some e) →
    revLoop ops mods pl tr (idxs1 ++ idxs2) = (st, some e) := by
  intro idxs1
  induction idxs1 with
  | nil =>
    intro idxs2 mods pl tr st e h
    simp [revLoop] at h
  | cons i rest ih =>
    intro idxs2 mods pl tr st e h
    rw [List.cons_append]
    cases hv : slot pl (i - 1) with
    | none =>
      rw [revLoop_cons_none ops mods pl tr i (rest ++ idxs2) hv]
      rw [revLoop_cons_none ops mods pl tr i rest hv] at h
      exact ih idxs2 mods _ tr st e h
    | some v =>
      cases hb : mods[i - 1]? with
      | none =>
        rw [revLoop_cons_skip ops mods pl tr i (rest ++ idxs2) v hv hb]
        rw [revLoop_cons_skip ops mods pl tr i rest v hv hb] at h
        exact ih idxs2 mods pl tr st e h
      | some b =>
        cases hc : ops.call b (some v) with
        | error e' =>
          rw [revLoop_cons_err ops mods pl tr i (rest ++ idxs2) v b e' hv hb hc]
          rw [revLoop_cons_err ops mods pl tr i rest v b e' hv hb hc] at h
          exact h
        | ok r =>
          rw [revLoop_cons_ok ops mods pl tr i (rest ++ idxs2) v b r hv hb hc]
          rw [revLoop_cons_ok ops mods pl tr i rest v b r hv hb hc] at h
          exact ih idxs2 _ _ _ st e h

theorem fastLoop_err_call (ops : StageOps ε α β) : ∀ (idxs : List Nat) (mods : List β)
    (pl : List (Option α)) (tr : List (Nat × Option α))
    (st : List β × List (Option α) × List (Nat × Option α)) (e : ε),
    fastLoop ops mods pl tr idxs = (st, some e) →
    ∃ b arg, ops.call b arg = Except.error e := by
  intro idxs
  induction idxs with
  | nil =>
    intro mods pl tr st e h
    simp [fastLoop] at h
  | cons i rest ih =>
    intro mods pl tr st e h
    cases hb : mods[i]? with
    | none =>
      rw [fastLoop_cons_none ops mods pl tr i rest hb] at h
      exact ih mods pl tr st e h
    | some b =>
      cases hc : ops.call b (slot pl i) with
      | error e' =>
        rw [fastLoop_cons_err ops mods pl tr i rest b e' hb hc] at h
        have he : e' = e := by
          have h2 := congrArg Prod.snd h
          simpa using h2
        exact ⟨b, slot pl i, by rw [hc, he]⟩
      | ok r =>
        rw [fastLoop_cons_ok ops mods pl tr i rest b r hb hc] at h
        exact ih _ _ _ st e h

theorem revLoop_err_call (ops : StageOps ε α β) : ∀ (idxs : List Nat) (mods : List β)
    (pl : List (Option α)) (tr : List (Nat × Option α))
    (st : List β × List (Option α) × List (Nat × Option α)) (e : ε),
    revLoop ops mods pl tr idxs = (st, some e) →
    ∃ b arg, ops.call b arg = Except.error e := by
  intro idxs
  induction idxs with
  | nil =>
    intro mods pl tr st e h
    simp [revLoop] at h
  | cons i rest ih =>
    intro mods pl tr st e h
    cases hv : slot pl (i - 1) with
    | none =>
      rw [revLoop_cons_none ops mods pl tr i rest hv] at h
      exact ih mods _ tr st e h
    | some v =>
      cases hb : mods[i - 1]? with
      | none =>
        rw [revLoop_cons_skip ops mods pl tr i rest v hv hb] at h
        exact ih mods pl tr st e h
      | some b =>
        cases hc : ops.call b (some v) with
        | error e' =>
          rw [revLoop_cons_err ops mods pl tr i rest v b e' hv hb hc] at h
          have he : e' = e := by
            have h2 := congrArg Prod.snd h
            simpa using h2
          exact ⟨b, some v, by rw [hc, he]⟩
        | ok r =>
          rw [revLoop_cons_ok ops mods pl tr i rest v b r hv hb hc] at h
          exact ih _ _ _ st e h

/-- If `step` reports a stage failure, `simulated_steps` was not
incremented and the reported failure is exactly one raised by a stage
invocation. -/
theorem step_err (ops : StageOps ε α β) (s : Simulator α β) (input : Option α) (e : ε)
    (h : (s.step ops input).2.1 = Except.error e) :
    (s.step ops input).1.simulated_steps = s.simulated_steps
    ∧ ∃ b arg, ops.call b arg = Except.error e := by
  rcases hr : stepLoops ops s input with ⟨⟨mods, pl, tr⟩, err⟩
  have hstep : s.step ops input = stepFinish s ((mods, pl, tr), err) := by
    show stepFinish s (stepLoops ops s input) = _
    rw [hr]
  cases err with
  | none =>
    rw [hstep] at h
    exact absurd h (by simp [stepFinish])
  | some e' =>
    rw [hstep] at h ⊢
    have he : e' = e := by
      simpa [stepFinish] using h
    subst he
    refine ⟨rfl, ?_⟩
    unfold stepLoops at hr
    by_cases hcond : (s.simulated_steps == 0 && s.fast) = true
    · rw [if_pos hcond] at hr
      exact fastLoop_err_call ops _ _ _ _ _ _ hr
    · rw [if_neg hcond] at hr
      exact revLoop_err_call ops _ _ _ _ _ _ hr

/-- C8 — Stage failure semantics: (1, 2) a failure inside either pass
stops the pass exactly at the failure point — running the loop on any
extended index list gives the identical partially-updated state and the
identical error, so no further stage is invoked; (3) at the `step` level
the failure propagates unchanged (it is exactly the error some stage
raised) and `simulated_steps` is not incremented; (4) a concrete run
(three stages, the middle one failing, after one successful step)
exhibits the partially-updated buffer: the input was stored, the slot of
the already-processed pass kept its value, the failing stage's write
never happened, only stage 1 was invoked, and `simulated_steps` stayed
at 1. -/
theorem c8_stage_failure_semantics :
    (∀ (E A B : Type) (ops : StageOps E A B) (idxs1 idxs2 : List Nat) (mods : List B)
      (pl : List (Option A)) (tr : List (Nat × Option A))
      (st : List B × List (Option A) × List (Nat × Option A)) (e : E),
      revLoop ops mods pl tr idxs1 = (st, some e) →
      revLoop ops mods pl tr (idxs1 ++ idxs2) = (st, some e))
    ∧ (∀ (E A B : Type) (ops : StageOps E A B) (idxs1 idxs2 : List Nat) (mods : List B)
      (pl : List (Option A)) (tr : List (Nat × Option A))
      (st : List B × List (Option A) × List (Nat × Option A)) (e : E),
      fastLoop ops mods pl tr idxs1 = (st, some e) →
      fastLoop ops mods pl tr (idxs1 ++ idxs2) = (st, some e))
    ∧ (∀ (E A B : Type) (ops : StageOps E A B) (s : Simulator A B) (input : Option A) (e : E),
      (s.step ops input).2.1 = Except.error e →
      (s.step ops input).1.simulated_steps = s.simulated_steps
      ∧ ∃ b arg, ops.call b arg = Except.error e)
    ∧ simFail1.step failOps (some 9)
      = (Simulator.mk [false, true, false] [some 9, some 7, none, none] 1 false,
         Except.error (), [(1, some 7)]) := by
  refine ⟨?_, ?_, ?_, by rfl⟩
  · intro E A B ops idxs1 idxs2 mods pl tr st e h
    exact revLoop_append_err ops idxs1 idxs2 mods pl tr st e h
  · intro E A B ops idxs1 idxs2 mods pl tr st e h
    exact fastLoop_append_err ops idxs1 idxs2 mods pl tr st e h
  · intro E A B ops s input e h
    exact step_err ops s input e h

/-- Closed witness for `c8_stage_failure_semantics`. -/
theorem c8_stage_failure_semantics_witness :
    (simFail1.step failOps (some 9)).1.simulated_steps = 1 := by
  have h := (c8_stage_failure_semantics.2.2.1 Unit Int Bool failOps simFail1 (some 9) ()
    (by rfl)).1
  exact h

end SpikingFlow
